import Mathlib

set_option maxRecDepth 10000

/-!
Verification of the example-retrieval and prompt-budgeting core of the
qbjs-chrome-ai repository.

The embedding follows the TypeScript sources:
* `src/src/retrieval.ts` — `hashSamples`, `getOrCreateDatabase`,
  `extractKeywords`, `retrieveRelevantExamples`, with the module-level
  cache (`cachedDB` / `cachedSamplesHash`) made explicit as a
  `RetrievalState` value threaded through the calls;
* the session module (`src/unnamed/part_001`) — `SYSTEM_PROMPT`,
  `formatFewShotExamples`, `formatConversationHistory`,
  `estimatePromptSize`, and the prompt-assembly portion of
  `initializeSession` (lines 144–199).

The Orama full-text search library called by `retrieval.ts` is external to
the repository; it is modelled from the specification (see `oramaSearch`).
Strings are modelled by their character lists; JS `string.length` (UTF-16
units) is modelled as the character count, which agrees on the ASCII data
used throughout.
-/

/-- A few-shot sample, `{description, code}` (src/src/types.ts variant used
by `retrieval.ts` and the session module). -/
structure FewShotSample where
  description : String
  code : String
deriving DecidableEq

/-- Role of a chat transcript entry (src/src/types.ts `ChatMessage.role`). -/
inductive Role where
  | user
  | system
  | error
deriving DecidableEq

/-- A chat transcript entry (src/src/types.ts `ChatMessage`). -/
structure ChatMessage where
  id : String
  role : Role
  text : String
  ts : Nat
deriving DecidableEq

/-- A role-tagged prompt message, `{role: string, content: string}` as
produced by the session module. -/
structure PromptMessage where
  role : String
  content : String
deriving DecidableEq

/-- Models JS `String.prototype.trim` on the character list (ASCII
whitespace; JS also strips some further Unicode space characters, which do
not occur in the data considered here). -/
def jsTrim (s : String) : String :=
  String.mk (((s.data.dropWhile Char.isWhitespace).reverse.dropWhile Char.isWhitespace).reverse)

/-- Models JS `String.prototype.toLowerCase` (ASCII range, via
`Char.toLower`). -/
def toLowerStr (s : String) : String :=
  String.mk (s.data.map Char.toLower)

/-- Splits a string on runs of whitespace, dropping empty fragments.
Models `split(/\s+/)` as used in `extractKeywords`; the possible leading
empty fragment JS produces is discarded by the later length filter, so the
two agree after filtering. -/
def splitWsAux : List Char → List Char → List String
  | [], acc => if acc.isEmpty then [] else [String.mk acc.reverse]
  | c :: cs, acc =>
    if c.isWhitespace then
      if acc.isEmpty then splitWsAux cs [] else String.mk acc.reverse :: splitWsAux cs []
    else splitWsAux cs (c :: acc)

/-- Whitespace tokenization of a string. -/
def splitWs (s : String) : List String :=
  splitWsAux s.data []

/-- Hex digit for the `\u00XX` escapes of `JSON.stringify`. -/
def hexDigit (n : Nat) : Char :=
  if n < 10 then Char.ofNat (48 + n) else Char.ofNat (87 + n)

/-- Per-character escaping of `JSON.stringify` for string values. -/
def escapeChar (c : Char) : List Char :=
  if c = '"' then ['\\', '"']
  else if c = '\\' then ['\\', '\\']
  else if c = '\n' then ['\\', 'n']
  else if c = '\r' then ['\\', 'r']
  else if c = '\t' then ['\\', 't']
  else if c.toNat = 8 then ['\\', 'b']
  else if c.toNat = 12 then ['\\', 'f']
  else if c.toNat < 32 then ['\\', 'u', '0', '0', hexDigit (c.toNat / 16), hexDigit (c.toNat % 16)]
  else [c]

/-- JSON string-value escaping over a character list. -/
def jsEscape (l : List Char) : List Char :=
  l.flatMap escapeChar

/-- Models `JSON.stringify({ code: c })` as used for assistant messages:
the serialized object with the single field `code`. -/
def jsonStringifyCode (c : String) : String :=
  String.mk ("\x7b\"code\":\"".data ++ jsEscape c.data ++ "\"\x7d".data)

/-! ### Retrieval (src/src/retrieval.ts) -/

/-- The indexed database: Orama's `create`/`insert` calls store one
document `{description: sample.description || "", code: sample.code || ""}`
per sample, in corpus order.  With total strings `x || ""` is the
identity, so the document list is the sample list. -/
structure OramaDB where
  docs : List FewShotSample
deriving DecidableEq

/-- The module-level cache of retrieval.ts (`cachedDB`,
`cachedSamplesHash`), made explicit. -/
structure RetrievalState where
  cachedDB : Option OramaDB
  cachedSamplesHash : String
deriving DecidableEq

/-- The state at module load: `cachedDB = null`, `cachedSamplesHash = ""`. -/
def initialState : RetrievalState := ⟨none, ""⟩

/-- Cache-invalidation fingerprint (retrieval.ts `hashSamples`): corpus
length, first description, last description. -/
def hashSamples (samples : List FewShotSample) : String :=
  toString samples.length ++ "-" ++
    ((samples.head?.map FewShotSample.description).getD "") ++ "-" ++
    ((samples.getLast?.map FewShotSample.description).getD "")

/-- Builds the indexed database from a corpus (the `create`/`insert` loop
of `getOrCreateDatabase`). -/
def buildDB (samples : List FewShotSample) : OramaDB :=
  ⟨samples⟩

/-- retrieval.ts `getOrCreateDatabase`: return the cached database when
`cachedDB` is set and the fingerprint matches, otherwise rebuild and update
both cache fields. -/
def getOrCreateDatabase (st : RetrievalState) (samples : List FewShotSample) :
    OramaDB × RetrievalState :=
  let h := hashSamples samples
  match st.cachedDB with
  | some db =>
    if st.cachedSamplesHash = h then (db, st)
    else (buildDB samples, ⟨some (buildDB samples), h⟩)
  | none => (buildDB samples, ⟨some (buildDB samples), h⟩)

/-- The stop-word set of retrieval.ts `extractKeywords`. -/
def stopWords : List String :=
  ["a", "an", "and", "are", "as", "at", "be", "by", "for", "from",
   "has", "he", "in", "is", "it", "its", "of", "on", "that", "the",
   "to", "was", "will", "with", "please", "generate", "create", "make",
   "show", "draw", "display", "code", "program"]

/-- retrieval.ts `extractKeywords`: lower-case, split on whitespace, keep
tokens of length > 1 that are not stop words. -/
def extractKeywords (prompt : String) : List String :=
  (splitWs (toLowerStr prompt)).filter
    (fun w => decide (1 < w.length) && !(stopWords.contains w))

/-- The search term handed to the engine: the keywords joined by spaces
when any survive the filter, else the full prompt. -/
def searchTermOf (userPrompt : String) : String :=
  let keywords := extractKeywords userPrompt
  if keywords.isEmpty then userPrompt else String.intercalate " " keywords

/-- A search hit: relevance score and matched document. -/
structure Hit where
  score : Nat
  document : FewShotSample
deriving DecidableEq

/-- Decides Levenshtein distance ≤ 1 between two character lists. -/
def withinOneEdit : List Char → List Char → Bool
  | [], bs => bs.length ≤ 1
  | as, [] => as.length ≤ 1
  | a :: as, b :: bs =>
    if a = b then withinOneEdit as bs
    else as == bs || as == b :: bs || a :: as == bs

/-- Score contributed by one description token against one query token:
exact matches score above fuzzy (≤ 1 edit) matches. -/
def tokenMatchScore (qt dt : String) : Nat :=
  if dt = qt then 2
  else if withinOneEdit dt.data qt.data then 1 else 0

/-- Relevance of one document for a tokenized query: term-frequency sum of
per-token match scores over the description tokens. -/
def docScore (queryTokens : List String) (d : FewShotSample) : Nat :=
  (queryTokens.map
    (fun qt => ((splitWs (toLowerStr d.description)).map (tokenMatchScore qt)).sum)).sum

/-- Descending-by-score ordering used for result lists. -/
def scoreGE {α : Type} (f : α → Nat) (a b : α) : Prop :=
  f b ≤ f a

instance {α : Type} (f : α → Nat) : DecidableRel (scoreGE f) :=
  fun a b => Nat.decLe (f b) (f a)

instance {α : Type} (f : α → Nat) : IsTotal α (scoreGE f) :=
  ⟨fun a b => (Nat.le_total (f a) (f b)).elim Or.inr Or.inl⟩

instance {α : Type} (f : α → Nat) : IsTrans α (scoreGE f) :=
  ⟨fun _ _ _ h1 h2 => Nat.le_trans h2 h1⟩

/-- Stable descending sort by a numeric score (the behavior of the
JS stable `sort((a, b) => b.score - a.score)`; any stable sort for the
same preorder produces the same list, here insertion sort). -/
def sortByScoreDesc {α : Type} (f : α → Nat) (l : List α) : List α :=
  List.insertionSort (scoreGE f) l

/-- Modelled from the spec: the Orama `search` call of retrieval.ts is an
external library whose code is not in the repository.  Following §4.1 of
the spec: case-insensitive matching over the `description` field only,
per-token typo tolerance of one character edit with exact token matches
scoring above fuzzy ones, non-negative term-frequency relevance scores,
only positively scored documents returned, hits sorted descending by score
with ties in insertion (corpus) order, truncated to `limit`. -/
def oramaSearch (db : OramaDB) (term : String) (limit : Nat) : List Hit :=
  let qts := splitWs (toLowerStr term)
  let hits := (db.docs.map (fun d => Hit.mk (docScore qts d) d)).filter
    (fun h => decide (0 < h.score))
  (sortByScoreDesc Hit.score hits).take limit

/-- One entry of the `scoreMap` of `retrieveRelevantExamples`: unique key,
resolved corpus sample, accumulated score. -/
structure MapEntry where
  key : String
  sample : FewShotSample
  score : Nat
deriving DecidableEq

/-- The unique key `description + "|||" + code` used for deduplication. -/
def uniqueKeyOf (d : FewShotSample) : String :=
  d.description ++ "|||" ++ d.code

/-- Processing of one hit in the `scoreMap` loop of
`retrieveRelevantExamples`: add the score to an existing entry with the
same key, else resolve the original sample by exact (description, code)
lookup in the corpus and append a new entry; drop the hit if no corpus
sample matches. -/
def insertHit (samples : List FewShotSample) (m : List MapEntry) (h : Hit) : List MapEntry :=
  let k := uniqueKeyOf h.document
  if m.any (fun e => e.key == k) then
    m.map (fun e => if e.key == k then ⟨e.key, e.sample, e.score + h.score⟩ else e)
  else
    match samples.find? (fun s =>
        s.description == h.document.description && s.code == h.document.code) with
    | some s => m ++ [⟨k, s, h.score⟩]
    | none => m

/-- The deduplicating score map built from the hit list, in insertion
order (JS `Map` preserves insertion order). -/
def dedupEntries (samples : List FewShotSample) (hits : List Hit) : List MapEntry :=
  hits.foldl (insertHit samples) []

/-- Search hits for a user prompt (`limit: maxExamples * 2`,
`properties: ["description"]`, `tolerance: 1`). -/
def searchHits (db : OramaDB) (userPrompt : String) (maxExamples : Nat) : List Hit :=
  oramaSearch db (searchTermOf userPrompt) (maxExamples * 2)

/-- The deduplicated entries sorted descending by combined score
(`scoredSamples.sort((a, b) => b.score - a.score)`). -/
def rankedScored (samples : List FewShotSample) (db : OramaDB)
    (userPrompt : String) (maxExamples : Nat) : List MapEntry :=
  sortByScoreDesc MapEntry.score (dedupEntries samples (searchHits db userPrompt maxExamples))

/-- retrieval.ts `retrieveRelevantExamples`, with the module-level cache
threaded explicitly: returns the selected samples and the new cache
state. -/
def retrieveRelevantExamples (userPrompt : String) (samples : List FewShotSample)
    (maxExamples : Nat) (st : RetrievalState) : List FewShotSample × RetrievalState :=
  if jsTrim userPrompt = "" ∨ samples.length = 0 then
    (samples.take maxExamples, st)
  else
    let dbSt := getOrCreateDatabase st samples
    (((rankedScored samples dbSt.1 userPrompt maxExamples).take maxExamples).map
      MapEntry.sample, dbSt.2)

/-! ### Session module (src/unnamed/part_001) -/

/-- The system prompt constant `SYSTEM_PROMPT` of the session module. -/
def SYSTEM_PROMPT : String :=
  "You are an expert QB64/QBJS programmer. Generate valid QB64 code based on user requests.\n\nQB64/QBJS syntax notes:\n- Use PRINT for output\n- Variables don\x27t need declaration (dynamic typing)\n- Use DIM for arrays\n- Line numbers are optional\n- Functions use FUNCTION/END FUNCTION\n- Subroutines use SUB/END SUB\n- Always use SCREEN 12 at the beginning of the program to set graphics mode\n- Use COLOR to set text/background colors\n\nAlways respond with valid, runnable QB64 code. Do not include explanations or markdown code blocks in your response - only the raw QB64 code. Always include SCREEN 12 at the start of the code."

/-- Session module `formatFewShotExamples`: one user message (the
description verbatim) and one assistant message (the code serialized as
`{"code": ...}`) per sample, skipping samples with an empty description or
empty code (the JS falsiness test on the string fields). -/
def formatFewShotExamples : List FewShotSample → List PromptMessage
  | [] => []
  | s :: rest =>
    if s.description = "" ∨ s.code = "" then formatFewShotExamples rest
    else ⟨"user", s.description⟩ :: ⟨"assistant", jsonStringifyCode s.code⟩ ::
      formatFewShotExamples rest

/-- The pair-extraction loop of `formatConversationHistory`: a user-role
entry immediately followed by a system-role entry forms a pair and both are
consumed; any other entry is skipped. -/
def extractPairs : List ChatMessage → List (ChatMessage × ChatMessage)
  | [] => []
  | [_] => []
  | m :: m2 :: rest2 =>
    if m.role = Role.user then
      if m2.role = Role.system then (m, m2) :: extractPairs rest2
      else extractPairs (m2 :: rest2)
    else extractPairs (m2 :: rest2)

/-- The two prompt messages emitted for one history pair. -/
def pairMessages (p : ChatMessage × ChatMessage) : List PromptMessage :=
  [⟨"user", p.1.text⟩, ⟨"assistant", jsonStringifyCode p.2.text⟩]

/-- Session module `formatConversationHistory`: extract the user/system
pairs, keep the most recent `maxHistoryPairs` of them (`pairs.slice(-n)`),
and emit each as a (user, assistant) message pair.  The slice is modelled
as `drop (length - n)`, which agrees with JS `slice(-n)` for every
`n ≥ 1`; at `n = 0` JS `slice(-0)` would return all pairs while this
model returns none — the source only ever calls with `n` = 5, 2 or 1, and
theorems quantifying over `n` assume `1 ≤ n`. -/
def formatConversationHistory (messages : List ChatMessage) (maxHistoryPairs : Nat) :
    List PromptMessage :=
  let pairs := extractPairs messages
  (pairs.drop (pairs.length - maxHistoryPairs)).flatMap pairMessages

/-- Spec-side formulation of the history scan (spec section 4.2 step 3):
the adjacent transcript pairs whose first entry is user-role and whose
second is system-role, in transcript order.  Compared against the
source's `extractPairs` loop in `extractPairs_eq_adjacent`. -/
def adjacentUserSystemPairs (msgs : List ChatMessage) :
    List (ChatMessage × ChatMessage) :=
  (msgs.zip msgs.tail).filter
    (fun p => p.1.role == Role.user && p.2.role == Role.system)

/-- Session module `estimatePromptSize`: sum of the content lengths. -/
def estimatePromptSize (prompts : List PromptMessage) : Nat :=
  prompts.foldl (fun sum p => sum + p.content.length) 0

/-- The example-trimming loop of `initializeSession` (lines 166–180): walk
the formatted example messages in order, adding one message at a time while
the running total plus the message size plus the (fixed) history size stays
within the budget, and stop at the first message that would exceed it.
Returns the kept messages and the final running total. -/
def exampleTrimLoop (histSize budget : Nat) :
    List PromptMessage → Nat → List PromptMessage × Nat
  | [], currentSize => ([], currentSize)
  | e :: rest, currentSize =>
    let exampleSize := e.content.length
    if budget < currentSize + exampleSize + histSize then ([], currentSize)
    else
      let res := exampleTrimLoop histSize budget rest (currentSize + exampleSize)
      (e :: res.1, res.2)

/-- The prompt-assembly portion of `initializeSession` (lines 144–199),
with the system prompt and the size budget as parameters (the source fixes
them to `SYSTEM_PROMPT` and `MAX_ESTIMATED_SIZE`; see `initialPromptsOf`):
format the examples and the most recent 2 history pairs, walk the example
messages under the budget, reduce the history window to 1 pair if the
running total plus the selected history still exceeds the budget, and
return system message ++ kept example messages ++ history messages. -/
def assemblePrompts (systemPrompt : String) (relevantSamples : List FewShotSample)
    (conversationHistory : List ChatMessage) (budget : Nat) : List PromptMessage :=
  let formattedExamples := formatFewShotExamples relevantSamples
  let historyPrompts := formatConversationHistory conversationHistory 2
  let basePrompts : List PromptMessage := [⟨"system", systemPrompt⟩]
  let currentSize := estimatePromptSize basePrompts
  let loopRes := exampleTrimLoop (estimatePromptSize historyPrompts) budget
    formattedExamples currentSize
  let historyFinal :=
    if budget < loopRes.2 + estimatePromptSize historyPrompts then
      formatConversationHistory conversationHistory 1
    else historyPrompts
  basePrompts ++ loopRes.1 ++ historyFinal

/-- The size-budget constant `MAX_ESTIMATED_SIZE` of `initializeSession`. -/
def MAX_ESTIMATED_SIZE : Nat := 100000

/-- The `initialPrompts` array built by `initializeSession` from the
retrieved examples and the conversation history (the retrieval corpus
`samples.json` is bundled data outside src/, so the ranked example list is
a parameter here, exactly as it reaches the assembly code). -/
def initialPromptsOf (relevantSamples : List FewShotSample)
    (conversationHistory : List ChatMessage) : List PromptMessage :=
  assemblePrompts SYSTEM_PROMPT relevantSamples conversationHistory MAX_ESTIMATED_SIZE

/-- The all-`a` string of length `n`, used to build large concrete
inputs. -/
def mkStr (n : Nat) : String :=
  String.mk (List.replicate n 'a')

/-! ### Helper lemmas -/

theorem string_length_mk (l : List Char) : (String.mk l).length = l.length := rfl

theorem mkStr_length (n : Nat) : (mkStr n).length = n := by
  simp [mkStr, string_length_mk]

theorem mkStr_ne_empty {n : Nat} (h : n ≠ 0) : mkStr n ≠ "" := by
  intro he
  have hl := congrArg String.length he
  rw [mkStr_length, String.length_empty] at hl
  exact h hl

theorem escapeChar_a : escapeChar 'a' = ['a'] := by decide

theorem escapeChar_B : escapeChar 'B' = ['B'] := by decide

theorem jsEscape_replicate_a (n : Nat) :
    jsEscape (List.replicate n 'a') = List.replicate n 'a' := by
  induction n with
  | zero => rfl
  | succ m ih =>
    simp only [List.replicate_succ, jsEscape, List.flatMap_cons, escapeChar_a] at *
    simp [ih]

theorem jsonStringifyCode_length (c : String) :
    (jsonStringifyCode c).length = 11 + (jsEscape c.data).length := by
  simp [jsonStringifyCode, string_length_mk]
  omega

theorem jsonStringifyCode_mkStr_length (n : Nat) :
    (jsonStringifyCode (mkStr n)).length = 11 + n := by
  rw [jsonStringifyCode_length]
  simp [mkStr, jsEscape_replicate_a]

theorem jsonStringifyCode_length_ge (c : String) : 11 ≤ (jsonStringifyCode c).length := by
  rw [jsonStringifyCode_length]
  omega

theorem string_length_pos {s : String} (h : s ≠ "") : 0 < s.length := by
  cases s with
  | mk data =>
    cases data with
    | nil => exact absurd rfl h
    | cons c cs => simp [string_length_mk]

theorem foldl_add_length (l : List PromptMessage) (c : Nat) :
    l.foldl (fun sum p => sum + p.content.length) c =
      c + l.foldl (fun sum p => sum + p.content.length) 0 := by
  induction l generalizing c with
  | nil => simp
  | cons p rest ih =>
    simp only [List.foldl_cons]
    rw [ih (c + p.content.length), ih (0 + p.content.length)]
    omega

theorem estimatePromptSize_nil : estimatePromptSize [] = 0 := rfl

theorem estimatePromptSize_cons (p : PromptMessage) (l : List PromptMessage) :
    estimatePromptSize (p :: l) = p.content.length + estimatePromptSize l := by
  simp only [estimatePromptSize, List.foldl_cons]
  rw [foldl_add_length]
  omega

theorem estimatePromptSize_singleton (p : PromptMessage) :
    estimatePromptSize [p] = p.content.length := by
  rw [estimatePromptSize_cons, estimatePromptSize_nil]
  omega

theorem formatFewShotExamples_eq (samples : List FewShotSample) :
    formatFewShotExamples samples =
      (samples.filter (fun s => !(s.description == "") && !(s.code == ""))).flatMap
        (fun s => [⟨"user", s.description⟩, ⟨"assistant", jsonStringifyCode s.code⟩]) := by
  induction samples with
  | nil => rfl
  | cons s rest ih =>
    by_cases hd : s.description = ""
    · simp [formatFewShotExamples, hd, ih]
    · by_cases hc : s.code = ""
      · simp [formatFewShotExamples, hd, hc, ih]
      · simp [formatFewShotExamples, hd, hc, ih]

theorem formatFewShotExamples_head {samples : List FewShotSample} {e : PromptMessage}
    {rest : List PromptMessage} (h : formatFewShotExamples samples = e :: rest) :
    e.content ≠ "" := by
  induction samples generalizing rest with
  | nil => exact absurd h (by simp [formatFewShotExamples])
  | cons s ss ih =>
    by_cases hskip : s.description = "" ∨ s.code = ""
    · rw [formatFewShotExamples, if_pos hskip] at h
      exact ih h
    · rw [formatFewShotExamples, if_neg hskip] at h
      push_neg at hskip
      injection h with h1 _
      rw [← h1]
      exact hskip.1

theorem flatMap_pairMessages_length (l : List (ChatMessage × ChatMessage)) :
    (l.flatMap pairMessages).length = 2 * l.length := by
  induction l with
  | nil => rfl
  | cons p rest ih =>
    simp only [List.flatMap_cons, List.length_append, ih, pairMessages]
    simp
    omega

theorem formatConversationHistory_def (msgs : List ChatMessage) (n : Nat) :
    formatConversationHistory msgs n =
      ((extractPairs msgs).drop ((extractPairs msgs).length - n)).flatMap pairMessages := rfl

theorem formatConversationHistory_eq_nil_iff (msgs : List ChatMessage) (n : Nat)
    (hn : 0 < n) : formatConversationHistory msgs n = [] ↔ extractPairs msgs = [] := by
  rw [formatConversationHistory_def]
  constructor
  · intro h
    have hl := congrArg List.length h
    rw [flatMap_pairMessages_length] at hl
    simp only [List.length_nil, List.length_drop] at hl
    have : (extractPairs msgs).length = 0 := by omega
    exact List.length_eq_zero.mp this
  · intro h
    simp [h]

theorem estimatePromptSize_formatConversationHistory_pos (msgs : List ChatMessage)
    (n : Nat) (hn : 0 < n) (h : extractPairs msgs ≠ []) :
    0 < estimatePromptSize (formatConversationHistory msgs n) := by
  rw [formatConversationHistory_def]
  have hne : (extractPairs msgs).drop ((extractPairs msgs).length - n) ≠ [] := by
    intro hc
    rw [List.drop_eq_nil_iff] at hc
    have h1 : 0 < (extractPairs msgs).length := List.length_pos.mpr h
    omega
  obtain ⟨p, ps, hps⟩ := List.exists_cons_of_ne_nil hne
  rw [hps]
  simp only [List.flatMap_cons, pairMessages]
  rw [List.cons_append, List.cons_append, List.nil_append,
    estimatePromptSize_cons, estimatePromptSize_cons]
  have := jsonStringifyCode_length_ge p.2.text
  dsimp only
  omega

theorem exampleTrimLoop_at_budget (histSize b : Nat) (msgs : List PromptMessage)
    (hmsgs : ∀ e rest, msgs = e :: rest → 0 < e.content.length + histSize) :
    exampleTrimLoop histSize b msgs b = ([], b) := by
  cases msgs with
  | nil => rfl
  | cons e rest =>
    have hpos := hmsgs e rest rfl
    rw [exampleTrimLoop]
    rw [if_pos (by omega)]

theorem assemblePrompts_def (sys : String) (samples : List FewShotSample)
    (hist : List ChatMessage) (budget : Nat) :
    assemblePrompts sys samples hist budget =
      [⟨"system", sys⟩] ++
        (exampleTrimLoop (estimatePromptSize (formatConversationHistory hist 2)) budget
          (formatFewShotExamples samples) (estimatePromptSize [⟨"system", sys⟩])).1 ++
        (if budget <
            (exampleTrimLoop (estimatePromptSize (formatConversationHistory hist 2)) budget
              (formatFewShotExamples samples) (estimatePromptSize [⟨"system", sys⟩])).2 +
            estimatePromptSize (formatConversationHistory hist 2)
          then formatConversationHistory hist 1
          else formatConversationHistory hist 2) := rfl

/-- Claim C2 (amended): the formatted example messages are walked one at a
time, each added only while the running total plus the message size plus
the selected history size fits the budget; when the running total plus the
selected history still exceeds the budget, the history window is reduced
to the single most-recent pair and appended without recheck.  Hence with a
budget equal to the system prompt length the result is the system message
followed by that single history pair — exactly one message only when the
history holds no (user, system) pair. -/
theorem assemble_at_system_budget (sys : String) (samples : List FewShotSample)
    (hist : List ChatMessage) :
    assemblePrompts sys samples hist sys.length =
      ⟨"system", sys⟩ :: formatConversationHistory hist 1 := by
  rw [assemblePrompts_def]
  have hbase : estimatePromptSize [(⟨"system", sys⟩ : PromptMessage)] = sys.length := by
    rw [estimatePromptSize_singleton]
  rw [hbase]
  have hloop : exampleTrimLoop (estimatePromptSize (formatConversationHistory hist 2))
      sys.length (formatFewShotExamples samples) sys.length = ([], sys.length) := by
    apply exampleTrimLoop_at_budget
    intro e rest he
    have h1 := formatFewShotExamples_head he
    have h2 := string_length_pos h1
    omega
  rw [hloop]
  by_cases hp : extractPairs hist = []
  · have h2 : formatConversationHistory hist 2 = [] :=
      (formatConversationHistory_eq_nil_iff _ 2 (by omega)).mpr hp
    have h1 : formatConversationHistory hist 1 = [] :=
      (formatConversationHistory_eq_nil_iff _ 1 (by omega)).mpr hp
    rw [h2, h1]
    simp [estimatePromptSize_nil]
  · have hpos := estimatePromptSize_formatConversationHistory_pos hist 2 (by omega) hp
    rw [if_pos (by dsimp only; omega)]
    simp

theorem exampleTrimLoop_nil (histSize b cs : Nat) :
    exampleTrimLoop histSize b [] cs = ([], cs) := rfl

theorem exampleTrimLoop_cons (histSize b cs : Nat) (e : PromptMessage)
    (rest : List PromptMessage) :
    exampleTrimLoop histSize b (e :: rest) cs =
      if b < cs + e.content.length + histSize then ([], cs)
      else
        (e :: (exampleTrimLoop histSize b rest (cs + e.content.length)).1,
          (exampleTrimLoop histSize b rest (cs + e.content.length)).2) := rfl

theorem exampleTrimLoop_two (histSize b cs : Nat) (e1 e2 : PromptMessage)
    (h1 : ¬ b < cs + e1.content.length + histSize)
    (h2 : b < cs + e1.content.length + e2.content.length + histSize) :
    exampleTrimLoop histSize b [e1, e2] cs = ([e1], cs + e1.content.length) := by
  rw [exampleTrimLoop_cons, if_neg h1, exampleTrimLoop_cons, if_pos (by omega)]

theorem SYSTEM_PROMPT_length : SYSTEM_PROMPT.length = 617 := by decide

/-- With no history, a single example whose user message fits the budget
while its assistant message does not is split by the trimming loop: only
the user message is kept. -/
theorem assemble_splits_pair (sys d c : String) (budget : Nat)
    (hd : d ≠ "") (hc : c ≠ "")
    (h1 : ¬ budget < sys.length + d.length)
    (h2 : budget < sys.length + d.length + (jsonStringifyCode c).length) :
    assemblePrompts sys [⟨d, c⟩] [] budget = [⟨"system", sys⟩, ⟨"user", d⟩] := by
  rw [assemblePrompts_def]
  have hh2 : formatConversationHistory [] 2 = [] := rfl
  rw [hh2, estimatePromptSize_nil]
  have hfmt : formatFewShotExamples [⟨d, c⟩] =
      [⟨"user", d⟩, ⟨"assistant", jsonStringifyCode c⟩] := by
    rw [formatFewShotExamples, if_neg, formatFewShotExamples]
    push_neg
    exact ⟨hd, hc⟩
  rw [hfmt, estimatePromptSize_singleton]
  have hloop := exampleTrimLoop_two 0 budget
    (PromptMessage.mk "system" sys).content.length
    (PromptMessage.mk "user" d) (PromptMessage.mk "assistant" (jsonStringifyCode c))
    (by dsimp only; omega)
    (by dsimp only; omega)
  rw [hloop, if_neg]
  · rfl
  · dsimp only
    omega

/-- Claim C1 (code bug): the budget-enforcement pass of `initializeSession`
walks the formatted example prompts one message at a time, so an example
whose user message fits the remaining budget while its assistant message
does not is split: the user message is emitted without the matching
assistant message.  With the shipped system prompt (617 chars) and budget
(100000 chars), a sample with a 90000-char description and a 20000-char
code yields initial prompts ending in an orphaned user message. -/
theorem initializeSession_splits_example_pair :
    initialPromptsOf [⟨mkStr 90000, mkStr 20000⟩] [] =
      [⟨"system", SYSTEM_PROMPT⟩, ⟨"user", mkStr 90000⟩] := by
  rw [initialPromptsOf]
  apply assemble_splits_pair
  · exact mkStr_ne_empty (by omega)
  · exact mkStr_ne_empty (by omega)
  · rw [SYSTEM_PROMPT_length, mkStr_length, MAX_ESTIMATED_SIZE]
    omega
  · rw [SYSTEM_PROMPT_length, mkStr_length, jsonStringifyCode_mkStr_length, MAX_ESTIMATED_SIZE]
    omega

theorem prompt_content_length (r s : String) :
    (PromptMessage.mk r s).content.length = s.length := rfl

/-- With no examples and a transcript holding exactly one user/system
pair, the pair is kept even when it exceeds the budget: the size check
reduces the history window to one pair and appends it without rechecking. -/
theorem assemble_keeps_history_pair (sys a b i1 i2 : String) (t1 t2 : Nat) (budget : Nat)
    (hbig : budget < sys.length + (a.length + ((jsonStringifyCode b).length + 0))) :
    assemblePrompts sys [] [⟨i1, Role.user, a, t1⟩, ⟨i2, Role.system, b, t2⟩] budget =
      [⟨"system", sys⟩, ⟨"user", a⟩, ⟨"assistant", jsonStringifyCode b⟩] := by
  rw [assemblePrompts_def]
  have hh2 : formatConversationHistory [⟨i1, Role.user, a, t1⟩, ⟨i2, Role.system, b, t2⟩] 2 =
      [⟨"user", a⟩, ⟨"assistant", jsonStringifyCode b⟩] := rfl
  have hh1 : formatConversationHistory [⟨i1, Role.user, a, t1⟩, ⟨i2, Role.system, b, t2⟩] 1 =
      [⟨"user", a⟩, ⟨"assistant", jsonStringifyCode b⟩] := rfl
  rw [hh2, hh1]
  have hfmt : formatFewShotExamples [] = [] := rfl
  rw [hfmt, exampleTrimLoop_nil, estimatePromptSize_singleton,
    estimatePromptSize_cons, estimatePromptSize_cons, estimatePromptSize_nil]
  rw [if_pos]
  · rfl
  · simp only [prompt_content_length]
    omega

theorem estimate_three (sys a b : String) :
    estimatePromptSize [⟨"system", sys⟩, ⟨"user", a⟩, ⟨"assistant", jsonStringifyCode b⟩] =
      sys.length + (a.length + ((jsonStringifyCode b).length + 0)) := by
  rw [estimatePromptSize_cons, estimatePromptSize_cons, estimatePromptSize_cons,
    estimatePromptSize_nil]

/-- Claim C8: whenever the transcript holds a user entry immediately
followed by a system entry, the assembled initial prompts end with a
nonempty history block (the 2-pair window or the reduced 1-pair window),
appended without any further budget check; consequently the total content
size can exceed the 100000-character budget constant, as the concrete
oversized history pair shows. -/
theorem initializeSession_keeps_history_pair :
    (∀ (relevant : List FewShotSample) (hist : List ChatMessage),
        extractPairs hist ≠ [] →
        ∃ pre h, initialPromptsOf relevant hist = pre ++ h ∧
          (h = formatConversationHistory hist 2 ∨ h = formatConversationHistory hist 1) ∧
          h ≠ []) ∧
    MAX_ESTIMATED_SIZE < estimatePromptSize (initialPromptsOf []
      [⟨"1", Role.user, mkStr 150000, 0⟩, ⟨"2", Role.system, "B", 0⟩]) := by
  constructor
  · intro relevant hist hp
    have h1ne : formatConversationHistory hist 1 ≠ [] := fun hnil =>
      hp ((formatConversationHistory_eq_nil_iff hist 1 (by omega)).mp hnil)
    have h2ne : formatConversationHistory hist 2 ≠ [] := fun hnil =>
      hp ((formatConversationHistory_eq_nil_iff hist 2 (by omega)).mp hnil)
    rw [initialPromptsOf, assemblePrompts_def]
    by_cases hbig : MAX_ESTIMATED_SIZE <
        (exampleTrimLoop (estimatePromptSize (formatConversationHistory hist 2))
          MAX_ESTIMATED_SIZE (formatFewShotExamples relevant)
          (estimatePromptSize [(⟨"system", SYSTEM_PROMPT⟩ : PromptMessage)])).2 +
        estimatePromptSize (formatConversationHistory hist 2)
    · rw [if_pos hbig]
      exact ⟨_, formatConversationHistory hist 1, rfl, Or.inr rfl, h1ne⟩
    · rw [if_neg hbig]
      exact ⟨_, formatConversationHistory hist 2, rfl, Or.inl rfl, h2ne⟩
  · have heq : initialPromptsOf []
        [⟨"1", Role.user, mkStr 150000, 0⟩, ⟨"2", Role.system, "B", 0⟩] =
        [⟨"system", SYSTEM_PROMPT⟩, ⟨"user", mkStr 150000⟩,
          ⟨"assistant", jsonStringifyCode "B"⟩] := by
      rw [initialPromptsOf]
      apply assemble_keeps_history_pair
      rw [SYSTEM_PROMPT_length, mkStr_length, MAX_ESTIMATED_SIZE]
      omega
    rw [heq, estimate_three, SYSTEM_PROMPT_length, mkStr_length, MAX_ESTIMATED_SIZE]
    omega

theorem retrieveRelevantExamples_cold (q : String) (samples : List FewShotSample)
    (k : Nat) (st : RetrievalState) (h : jsTrim q = "" ∨ samples.length = 0) :
    retrieveRelevantExamples q samples k st = (samples.take k, st) := by
  rw [retrieveRelevantExamples, if_pos h]

theorem retrieveRelevantExamples_scored (q : String) (samples : List FewShotSample)
    (k : Nat) (st : RetrievalState) (h : ¬ (jsTrim q = "" ∨ samples.length = 0)) :
    retrieveRelevantExamples q samples k st =
      (((rankedScored samples (getOrCreateDatabase st samples).1 q k).take k).map
        MapEntry.sample, (getOrCreateDatabase st samples).2) := by
  rw [retrieveRelevantExamples, if_neg h]

theorem foldl_insertHit_inv (samples : List FewShotSample) (hits : List Hit) :
    ∀ (m : List MapEntry),
      (∀ e ∈ m, e.sample ∈ samples ∧ e.key = uniqueKeyOf e.sample) →
      ∀ e ∈ hits.foldl (insertHit samples) m,
        e.sample ∈ samples ∧ e.key = uniqueKeyOf e.sample := by
  induction hits with
  | nil => intro m hm; simpa using hm
  | cons h rest ih =>
    intro m hm
    rw [List.foldl_cons]
    apply ih
    intro e he
    simp only [insertHit] at he
    by_cases hany : (m.any (fun e => e.key == uniqueKeyOf h.document)) = true
    · rw [if_pos hany] at he
      obtain ⟨e', he', heq⟩ := List.mem_map.mp he
      by_cases hk : (e'.key == uniqueKeyOf h.document) = true
      · rw [if_pos hk] at heq
        obtain ⟨hs, hkey⟩ := hm e' he'
        rw [← heq]
        exact ⟨hs, hkey⟩
      · rw [if_neg hk] at heq
        rw [← heq]
        exact hm e' he'
    · rw [if_neg hany] at he
      cases hfind : samples.find? (fun s =>
          s.description == h.document.description && s.code == h.document.code) with
      | none =>
        rw [hfind] at he
        exact hm e he
      | some s =>
        rw [hfind] at he
        rcases List.mem_append.mp he with hmem | hnew
        · exact hm e hmem
        · have he2 : e = ⟨uniqueKeyOf h.document, s, h.score⟩ := by
            simpa using hnew
          have hpred := List.find?_some hfind
          rw [Bool.and_eq_true, beq_iff_eq, beq_iff_eq] at hpred
          rw [he2]
          refine ⟨List.mem_of_find?_eq_some hfind, ?_⟩
          show uniqueKeyOf h.document = uniqueKeyOf s
          unfold uniqueKeyOf
          rw [hpred.1, hpred.2]

theorem dedupEntries_inv (samples : List FewShotSample) (hits : List Hit) :
    ∀ e ∈ dedupEntries samples hits,
      e.sample ∈ samples ∧ e.key = uniqueKeyOf e.sample :=
  foldl_insertHit_inv samples hits [] (by simp)

theorem insertHit_keys_nodup (samples : List FewShotSample) (m : List MapEntry) (h : Hit)
    (hnd : (m.map MapEntry.key).Nodup) :
    ((insertHit samples m h).map MapEntry.key).Nodup := by
  simp only [insertHit]
  by_cases hany : (m.any (fun e => e.key == uniqueKeyOf h.document)) = true
  · rw [if_pos hany]
    have hmap : (m.map (fun e =>
        if (e.key == uniqueKeyOf h.document) = true
        then (⟨e.key, e.sample, e.score + h.score⟩ : MapEntry) else e)).map MapEntry.key =
        m.map MapEntry.key := by
      rw [List.map_map]
      apply List.map_congr_left
      intro e _
      dsimp only [Function.comp]
      split
      · rfl
      · rfl
    rw [hmap]
    exact hnd
  · rw [if_neg hany]
    cases hfind : samples.find? (fun s =>
        s.description == h.document.description && s.code == h.document.code) with
    | none => exact hnd
    | some s =>
      have hm1 : ((m ++ [(⟨uniqueKeyOf h.document, s, h.score⟩ : MapEntry)]).map
          MapEntry.key) = m.map MapEntry.key ++ [uniqueKeyOf h.document] := by
        rw [List.map_append]
        rfl
      rw [hm1]
      have hperm := List.perm_append_singleton
        (uniqueKeyOf h.document) (m.map MapEntry.key)
      rw [hperm.nodup_iff]
      rw [List.nodup_cons]
      refine ⟨?_, hnd⟩
      intro hmem
      obtain ⟨e, he, hkey⟩ := List.mem_map.mp hmem
      apply hany
      rw [List.any_eq_true]
      exact ⟨e, he, by rw [beq_iff_eq]; exact hkey⟩

theorem foldl_insertHit_nodup (samples : List FewShotSample) (hits : List Hit) :
    ∀ (m : List MapEntry), (m.map MapEntry.key).Nodup →
      ((hits.foldl (insertHit samples) m).map MapEntry.key).Nodup := by
  induction hits with
  | nil => intro m hm; simpa using hm
  | cons h rest ih =>
    intro m hm
    rw [List.foldl_cons]
    exact ih _ (insertHit_keys_nodup samples m h hm)

theorem dedupEntries_keys_nodup (samples : List FewShotSample) (hits : List Hit) :
    ((dedupEntries samples hits).map MapEntry.key).Nodup :=
  foldl_insertHit_nodup samples hits [] (by simp)

theorem rankedScored_pairwise_ne (samples : List FewShotSample) (db : OramaDB)
    (q : String) (k : Nat) :
    (rankedScored samples db q k).Pairwise
      (fun a b => ¬ (a.sample.description = b.sample.description ∧
        a.sample.code = b.sample.code)) := by
  have hnd := dedupEntries_keys_nodup samples (searchHits db q k)
  have hpw : (dedupEntries samples (searchHits db q k)).Pairwise
      (fun a b => a.key ≠ b.key) := List.pairwise_map.mp hnd
  have hinv := dedupEntries_inv samples (searchHits db q k)
  have hpw2 : (dedupEntries samples (searchHits db q k)).Pairwise
      (fun a b => ¬ (a.sample.description = b.sample.description ∧
        a.sample.code = b.sample.code)) := by
    refine List.Pairwise.imp_of_mem ?_ hpw
    intro a b ha hb hne hid
    obtain ⟨-, hka⟩ := hinv a ha
    obtain ⟨-, hkb⟩ := hinv b hb
    apply hne
    rw [hka, hkb]
    unfold uniqueKeyOf
    rw [hid.1, hid.2]
  have hperm := List.perm_insertionSort (scoreGE MapEntry.score)
    (dedupEntries samples (searchHits db q k))
  have hsym : ∀ {x y : MapEntry},
      (¬ (x.sample.description = y.sample.description ∧ x.sample.code = y.sample.code)) →
      ¬ (y.sample.description = x.sample.description ∧ y.sample.code = x.sample.code) :=
    fun hxy hid => hxy ⟨hid.1.symm, hid.2.symm⟩
  rw [rankedScored, sortByScoreDesc]
  exact (hperm.pairwise_iff hsym).mpr hpw2

/-! ### Claim theorems for retrieval -/

/-- Claim C6: when the query trims to the empty string, or the corpus is
empty, retrieval returns exactly the first min(limit, corpus length)
corpus entries verbatim, in corpus order, with no scoring applied. -/
theorem retrieveRelevantExamples_cold_start (q : String) (samples : List FewShotSample)
    (k : Nat) (st : RetrievalState) (h : jsTrim q = "" ∨ samples.length = 0) :
    (retrieveRelevantExamples q samples k st).1 = samples.take k ∧
    (samples.take k).length = min k samples.length := by
  constructor
  · rw [retrieveRelevantExamples_cold q samples k st h]
  · rw [List.length_take]

theorem retrieveRelevantExamples_cold_start_witness :
    (retrieveRelevantExamples " " [⟨"d", "c"⟩, ⟨"e", "f"⟩] 1 initialState).1 =
      ([⟨"d", "c"⟩, ⟨"e", "f"⟩] : List FewShotSample).take 1 ∧
    (([⟨"d", "c"⟩, ⟨"e", "f"⟩] : List FewShotSample).take 1).length =
      min 1 ([⟨"d", "c"⟩, ⟨"e", "f"⟩] : List FewShotSample).length :=
  retrieveRelevantExamples_cold_start " " [⟨"d", "c"⟩, ⟨"e", "f"⟩] 1 initialState
    (Or.inl (by decide))

/-- Claim C10: every element of the retrieval result is an element of the
input corpus — the cold-start path returns a prefix, and on the scored
path every candidate is resolved by exact (description, code) lookup in
the corpus, with unresolved candidates dropped. -/
theorem retrieveRelevantExamples_mem (q : String) (samples : List FewShotSample)
    (k : Nat) (st : RetrievalState) :
    ∀ x ∈ (retrieveRelevantExamples q samples k st).1, x ∈ samples := by
  intro x hx
  by_cases hcold : jsTrim q = "" ∨ samples.length = 0
  · rw [retrieveRelevantExamples_cold q samples k st hcold] at hx
    exact List.take_subset k samples hx
  · rw [retrieveRelevantExamples_scored q samples k st hcold] at hx
    obtain ⟨e, he, hes⟩ := List.mem_map.mp hx
    have he2 : e ∈ rankedScored samples (getOrCreateDatabase st samples).1 q k :=
      List.take_subset _ _ he
    rw [rankedScored, sortByScoreDesc] at he2
    have he3 := (List.perm_insertionSort (scoreGE MapEntry.score) _).mem_iff.mp he2
    have := (dedupEntries_inv _ _ e he3).1
    rwa [hes] at this

theorem retrieveRelevantExamples_mem_witness :
    (⟨"mango", "1"⟩ : FewShotSample) ∈ [(⟨"mango", "1"⟩ : FewShotSample)] :=
  retrieveRelevantExamples_mem "mango" [⟨"mango", "1"⟩] 5 initialState
    ⟨"mango", "1"⟩ (by decide)

/-- Claim C4 (amended): retrieval returns at most `limit` entries for every
input, and on the scored path (non-whitespace query, non-empty corpus) the
result never contains two entries with identical (description, code)
identity, even when the corpus contains duplicates; the cold-start path
returns the corpus prefix verbatim, which may repeat identities. -/
theorem retrieveRelevantExamples_limit_nodup (q : String) (samples : List FewShotSample)
    (k : Nat) (st : RetrievalState) :
    (retrieveRelevantExamples q samples k st).1.length ≤ k ∧
    (¬ jsTrim q = "" → ¬ samples.length = 0 →
      (retrieveRelevantExamples q samples k st).1.Pairwise
        (fun a b => ¬ (a.description = b.description ∧ a.code = b.code))) := by
  constructor
  · by_cases hcold : jsTrim q = "" ∨ samples.length = 0
    · rw [retrieveRelevantExamples_cold q samples k st hcold]
      exact List.length_take_le k samples
    · rw [retrieveRelevantExamples_scored q samples k st hcold]
      show (((rankedScored samples (getOrCreateDatabase st samples).1 q k).take k).map
        MapEntry.sample).length ≤ k
      rw [List.length_map]
      exact List.length_take_le _ _
  · intro hq hs
    rw [retrieveRelevantExamples_scored q samples k st (by tauto)]
    show (((rankedScored samples (getOrCreateDatabase st samples).1 q k).take k).map
      MapEntry.sample).Pairwise (fun a b => ¬ (a.description = b.description ∧
        a.code = b.code))
    rw [List.pairwise_map]
    exact List.Pairwise.sublist (List.take_sublist _ _)
      (rankedScored_pairwise_ne samples (getOrCreateDatabase st samples).1 q k)

theorem retrieveRelevantExamples_limit_nodup_witness :
    (retrieveRelevantExamples "mango" [⟨"mango", "1"⟩, ⟨"mango", "1"⟩] 5
      initialState).1.Pairwise
      (fun a b => ¬ (a.description = b.description ∧ a.code = b.code)) :=
  (retrieveRelevantExamples_limit_nodup "mango" [⟨"mango", "1"⟩, ⟨"mango", "1"⟩] 5
    initialState).2 (by decide) (by decide)

/-- Claim C4 counterexample: on the cold-start path (empty query) the
corpus prefix is returned verbatim, so a corpus that repeats an identity
yields a result with two identical (description, code) entries. -/
theorem retrieveRelevantExamples_cold_duplicates_cex :
    (retrieveRelevantExamples "" [⟨"d", "c"⟩, ⟨"d", "c"⟩] 2 initialState).1 =
      [⟨"d", "c"⟩, ⟨"d", "c"⟩] ∧
    ¬ (retrieveRelevantExamples "" [⟨"d", "c"⟩, ⟨"d", "c"⟩] 2 initialState).1.Pairwise
      (fun a b => ¬ (a.description = b.description ∧ a.code = b.code)) := by
  constructor
  · decide
  · decide

/-- Claim C3 (amended): retrieval is a pure function of (query, corpus,
limit) whenever the incoming cache state is consistent with the corpus —
absent, fingerprint-mismatched (forcing a rebuild), or holding the index
built from an identical corpus.  The fingerprint covers only corpus
length plus first/last description, so consistency is not automatic. -/
theorem retrieveRelevantExamples_pure (q : String) (samples : List FewShotSample)
    (k : Nat) (st : RetrievalState)
    (hc : ∀ db, st.cachedDB = some db → st.cachedSamplesHash = hashSamples samples →
      db = buildDB samples) :
    (retrieveRelevantExamples q samples k st).1 =
      (retrieveRelevantExamples q samples k initialState).1 := by
  by_cases hcold : jsTrim q = "" ∨ samples.length = 0
  · rw [retrieveRelevantExamples_cold q samples k st hcold,
      retrieveRelevantExamples_cold q samples k initialState hcold]
  · have hdb : (getOrCreateDatabase st samples).1 = buildDB samples := by
      unfold getOrCreateDatabase
      cases hst : st.cachedDB with
      | none => rfl
      | some db =>
        dsimp only
        by_cases hh : st.cachedSamplesHash = hashSamples samples
        · rw [if_pos hh]
          exact hc db hst hh
        · rw [if_neg hh]
    have hdb0 : (getOrCreateDatabase initialState samples).1 = buildDB samples := rfl
    rw [retrieveRelevantExamples_scored q samples k st hcold,
      retrieveRelevantExamples_scored q samples k initialState hcold]
    show ((rankedScored samples (getOrCreateDatabase st samples).1 q k).take k).map
        MapEntry.sample =
      ((rankedScored samples (getOrCreateDatabase initialState samples).1 q k).take k).map
        MapEntry.sample
    rw [hdb, hdb0]

theorem retrieveRelevantExamples_pure_witness :
    (retrieveRelevantExamples "mango" [⟨"mango", "1"⟩] 5
      ⟨some (buildDB [⟨"mango", "1"⟩]), hashSamples [⟨"mango", "1"⟩]⟩).1 =
    (retrieveRelevantExamples "mango" [⟨"mango", "1"⟩] 5 initialState).1 :=
  retrieveRelevantExamples_pure "mango" [⟨"mango", "1"⟩] 5
    ⟨some (buildDB [⟨"mango", "1"⟩]), hashSamples [⟨"mango", "1"⟩]⟩
    (fun db hdb _ => by
      injection hdb with h
      exact h.symm)

/-- Claim C3 counterexample: the fingerprint ignores the `code` fields, so
after a call on corpus [(mango, 1)], a call on the same-fingerprint corpus
[(mango, 2)] reuses the stale index; its hit (mango, 1) fails the exact
lookup in the new corpus and is dropped, and the result differs from the
result of the identical call made from the initial state. -/
theorem retrieveRelevantExamples_history_dependence_cex :
    (retrieveRelevantExamples "mango" [⟨"mango", "2"⟩] 5
      ((retrieveRelevantExamples "mango" [⟨"mango", "1"⟩] 5 initialState).2)).1 ≠
    (retrieveRelevantExamples "mango" [⟨"mango", "2"⟩] 5 initialState).1 := by
  decide

theorem sorted_sortByScoreDesc {α : Type} (f : α → Nat) (l : List α) :
    (sortByScoreDesc f l).Sorted (scoreGE f) :=
  List.sorted_insertionSort (scoreGE f) l

theorem filter_orderedInsert_score {α : Type} (f : α → Nat) (s : Nat) (a : α) :
    ∀ m : List α,
      (List.orderedInsert (scoreGE f) a m).filter (fun x => f x == s) =
        if f a = s then a :: m.filter (fun x => f x == s)
        else m.filter (fun x => f x == s)
  | [] => by
    by_cases h : f a = s
    · rw [if_pos h, List.orderedInsert, List.filter_cons,
        if_pos (by rw [beq_iff_eq]; exact h)]
    · rw [if_neg h, List.orderedInsert, List.filter_cons,
        if_neg (by rw [beq_iff_eq]; exact h)]
  | b :: m => by
    by_cases hr : scoreGE f a b
    · rw [List.orderedInsert_of_le _ m hr]
      by_cases h : f a = s
      · rw [if_pos h, List.filter_cons, if_pos (by rw [beq_iff_eq]; exact h)]
      · rw [if_neg h, List.filter_cons, if_neg (by rw [beq_iff_eq]; exact h)]
    · have hlt : f a < f b := by
        simp only [scoreGE, not_le] at hr
        exact hr
      rw [List.orderedInsert, if_neg hr, List.filter_cons, List.filter_cons]
      by_cases h : f a = s
      · have hb : ¬ f b = s := by omega
        rw [if_pos h, if_neg (by rw [beq_iff_eq]; exact hb),
          if_neg (by rw [beq_iff_eq]; exact hb),
          filter_orderedInsert_score f s a m, if_pos h]
      · by_cases hb : f b = s
        · rw [if_neg h, if_pos (by rw [beq_iff_eq]; exact hb),
            if_pos (by rw [beq_iff_eq]; exact hb),
            filter_orderedInsert_score f s a m, if_neg h]
        · rw [if_neg h, if_neg (by rw [beq_iff_eq]; exact hb),
            if_neg (by rw [beq_iff_eq]; exact hb),
            filter_orderedInsert_score f s a m, if_neg h]

theorem filter_sortByScoreDesc {α : Type} (f : α → Nat) (s : Nat) (l : List α) :
    (sortByScoreDesc f l).filter (fun x => f x == s) = l.filter (fun x => f x == s) := by
  induction l with
  | nil => rfl
  | cons a m ih =>
    rw [sortByScoreDesc, List.insertionSort, ← sortByScoreDesc,
      filter_orderedInsert_score f s a, ih, List.filter_cons]
    by_cases h : f a = s
    · rw [if_pos h, if_pos (by rw [beq_iff_eq]; exact h)]
    · rw [if_neg h, if_neg (by rw [beq_iff_eq]; exact h)]

/-- Claim C5 (amended): on the scored path the result is the score-map
entries sorted in descending order of combined score and truncated to the
limit; the sort is stable, so entries with equal combined score keep the
order in which their identities first entered the score map (the search
hit order), which coincides with original corpus order only when no
duplicate identities merge their scores. -/
theorem retrieveRelevantExamples_sorted_stable (q : String) (samples : List FewShotSample)
    (k : Nat) (st : RetrievalState)
    (hq : ¬ jsTrim q = "") (hs : ¬ samples.length = 0) :
    (retrieveRelevantExamples q samples k st).1 =
      ((rankedScored samples (getOrCreateDatabase st samples).1 q k).take k).map
        MapEntry.sample ∧
    (rankedScored samples (getOrCreateDatabase st samples).1 q k).Sorted
      (scoreGE MapEntry.score) ∧
    ∀ s : Nat,
      (rankedScored samples (getOrCreateDatabase st samples).1 q k).filter
        (fun e => e.score == s) =
      (dedupEntries samples
        (searchHits (getOrCreateDatabase st samples).1 q k)).filter
        (fun e => e.score == s) := by
  refine ⟨?_, ?_, ?_⟩
  · rw [retrieveRelevantExamples_scored q samples k st (by tauto)]
  · exact sorted_sortByScoreDesc MapEntry.score _
  · intro s
    exact filter_sortByScoreDesc MapEntry.score s _

theorem retrieveRelevantExamples_sorted_stable_witness :
    (retrieveRelevantExamples "mango" [⟨"mango", "1"⟩] 5 initialState).1 =
      ((rankedScored [⟨"mango", "1"⟩]
        (getOrCreateDatabase initialState [⟨"mango", "1"⟩]).1 "mango" 5).take 5).map
        MapEntry.sample ∧
    (rankedScored [⟨"mango", "1"⟩]
      (getOrCreateDatabase initialState [⟨"mango", "1"⟩]).1 "mango" 5).Sorted
      (scoreGE MapEntry.score) ∧
    ∀ s : Nat,
      (rankedScored [⟨"mango", "1"⟩]
        (getOrCreateDatabase initialState [⟨"mango", "1"⟩]).1 "mango" 5).filter
        (fun e => e.score == s) =
      (dedupEntries [⟨"mango", "1"⟩]
        (searchHits (getOrCreateDatabase initialState [⟨"mango", "1"⟩]).1
          "mango" 5)).filter (fun e => e.score == s) :=
  retrieveRelevantExamples_sorted_stable "mango" [⟨"mango", "1"⟩] 5 initialState
    (by decide) (by decide)

/-- Claim C5 counterexample: with corpus [(fern, b), (fern fern, a),
(fern, b)] and query "fern", the duplicate (fern, b) merges to combined
score 4, equal to the score of (fern fern, a); the result lists
(fern fern, a) first although (fern, b) appears earlier in the corpus, so
equal combined scores are not tie-broken by original corpus order. -/
theorem retrieveRelevantExamples_tie_order_cex :
    (retrieveRelevantExamples "fern"
      [⟨"fern", "b"⟩, ⟨"fern fern", "a"⟩, ⟨"fern", "b"⟩] 5 initialState).1 =
      [⟨"fern fern", "a"⟩, ⟨"fern", "b"⟩] ∧
    rankedScored [⟨"fern", "b"⟩, ⟨"fern fern", "a"⟩, ⟨"fern", "b"⟩]
      (getOrCreateDatabase initialState
        [⟨"fern", "b"⟩, ⟨"fern fern", "a"⟩, ⟨"fern", "b"⟩]).1 "fern" 5 =
      [⟨"fern fern|||a", ⟨"fern fern", "a"⟩, 4⟩, ⟨"fern|||b", ⟨"fern", "b"⟩, 4⟩] ∧
    List.indexOf (⟨"fern", "b"⟩ : FewShotSample)
        [⟨"fern", "b"⟩, ⟨"fern fern", "a"⟩, ⟨"fern", "b"⟩] <
      List.indexOf (⟨"fern fern", "a"⟩ : FewShotSample)
        [⟨"fern", "b"⟩, ⟨"fern fern", "a"⟩, ⟨"fern", "b"⟩] := by
  refine ⟨by decide, by decide, by decide⟩

/-- Claim C2 counterexample: with a budget equal to the system prompt
length ("sys", budget 3) and a transcript holding one user/system pair,
the assembler returns three messages — the reduced single history pair is
appended without a recheck — not exactly one message. -/
theorem assemble_at_system_budget_cex :
    assemblePrompts "sys" []
      [⟨"i1", Role.user, "A", 0⟩, ⟨"i2", Role.system, "B", 0⟩] 3 =
      [⟨"system", "sys"⟩, ⟨"user", "A"⟩,
        ⟨"assistant", jsonStringifyCode "B"⟩] ∧
    assemblePrompts "sys" []
      [⟨"i1", Role.user, "A", 0⟩, ⟨"i2", Role.system, "B", 0⟩] 3 ≠
      [⟨"system", "sys"⟩] := by
  refine ⟨by decide, by decide⟩

theorem adjacentUserSystemPairs_cons_of_ne (m2 : ChatMessage)
    (rest : List ChatMessage) (h : ¬ m2.role = Role.user) :
    adjacentUserSystemPairs (m2 :: rest) = adjacentUserSystemPairs rest := by
  cases rest with
  | nil => rfl
  | cons r rest2 =>
    show ((m2, r) :: (r :: rest2).zip rest2).filter
        (fun p => p.1.role == Role.user && p.2.role == Role.system) =
      adjacentUserSystemPairs (r :: rest2)
    rw [List.filter_cons, if_neg (by simp [h])]
    rfl

theorem adjacentUserSystemPairs_cons_cons (m1 m2 : ChatMessage)
    (rest : List ChatMessage) :
    adjacentUserSystemPairs (m1 :: m2 :: rest) =
      (if m1.role = Role.user ∧ m2.role = Role.system then [(m1, m2)] else []) ++
        adjacentUserSystemPairs (m2 :: rest) := by
  show ((m1, m2) :: (m2 :: rest).zip rest).filter
      (fun p => p.1.role == Role.user && p.2.role == Role.system) =
    (if m1.role = Role.user ∧ m2.role = Role.system then [(m1, m2)] else []) ++
      adjacentUserSystemPairs (m2 :: rest)
  rw [List.filter_cons]
  by_cases h : m1.role = Role.user ∧ m2.role = Role.system
  · rw [if_pos (by simp [h.1, h.2]), if_pos h]
    rfl
  · rw [if_neg (by simpa using h), if_neg h]
    rfl

theorem extractPairs_eq_adjacent : ∀ msgs : List ChatMessage,
    extractPairs msgs = adjacentUserSystemPairs msgs
  | [] => rfl
  | [_] => rfl
  | m1 :: m2 :: rest => by
    rw [extractPairs, adjacentUserSystemPairs_cons_cons]
    by_cases h1 : m1.role = Role.user
    · by_cases h2 : m2.role = Role.system
      · rw [if_pos h1, if_pos h2, if_pos ⟨h1, h2⟩, extractPairs_eq_adjacent rest]
        have hm2 : ¬ m2.role = Role.user := by
          rw [h2]
          decide
        rw [adjacentUserSystemPairs_cons_of_ne m2 rest hm2]
        rfl
      · rw [if_pos h1, if_neg h2, if_neg (fun hc => h2 hc.2),
          extractPairs_eq_adjacent (m2 :: rest)]
        rfl
    · rw [if_neg h1, if_neg (fun hc => h1 hc.1),
        extractPairs_eq_adjacent (m2 :: rest)]
      rfl

/-- Claim C7: the extracted history pairs are exactly the adjacent
(user-role, system-role) transcript pairs in order — each user entry
immediately followed by a system entry becomes one pair, while orphaned
user turns and error entries join no pair; for every window size N ≥ 1
the kept pairs are a suffix of the extracted pairs of length
min(N, total), i.e. the most recent N, each emitted as a (user,
assistant) message pair in the serialized code-field shape; on the
transcript [user(A), system(B), user(C), error(D)] exactly the pair
(A, B) is produced and C and D are excluded. -/
theorem formatConversationHistory_pairs :
    (∀ msgs : List ChatMessage, extractPairs msgs = adjacentUserSystemPairs msgs) ∧
    (∀ (msgs : List ChatMessage) (n : Nat), 1 ≤ n →
      ∃ pre kept, extractPairs msgs = pre ++ kept ∧
        kept.length = min n (extractPairs msgs).length ∧
        formatConversationHistory msgs n = kept.flatMap pairMessages) ∧
    (∀ (a b c d i1 i2 i3 i4 : String) (t1 t2 t3 t4 : Nat),
      formatConversationHistory
        [⟨i1, Role.user, a, t1⟩, ⟨i2, Role.system, b, t2⟩,
          ⟨i3, Role.user, c, t3⟩, ⟨i4, Role.error, d, t4⟩] 5 =
      [⟨"user", a⟩, ⟨"assistant", jsonStringifyCode b⟩]) := by
  refine ⟨extractPairs_eq_adjacent, ?_, ?_⟩
  · intro msgs n _hn
    refine ⟨(extractPairs msgs).take ((extractPairs msgs).length - n),
      (extractPairs msgs).drop ((extractPairs msgs).length - n),
      (List.take_append_drop _ _).symm, ?_, rfl⟩
    rw [List.length_drop]
    omega
  · intro a b c d i1 i2 i3 i4 t1 t2 t3 t4
    rfl

theorem formatConversationHistory_pairs_witness :
    ∃ pre kept,
      extractPairs [⟨"i1", Role.user, "A", 0⟩, ⟨"i2", Role.system, "B", 0⟩] =
        pre ++ kept ∧
      kept.length = min 1
        (extractPairs [⟨"i1", Role.user, "A", 0⟩, ⟨"i2", Role.system, "B", 0⟩]).length ∧
      formatConversationHistory
        [⟨"i1", Role.user, "A", 0⟩, ⟨"i2", Role.system, "B", 0⟩] 1 =
        kept.flatMap pairMessages :=
  formatConversationHistory_pairs.2.1
    [⟨"i1", Role.user, "A", 0⟩, ⟨"i2", Role.system, "B", 0⟩] 1 (by decide)

theorem flatMap_examplePair_length (l : List FewShotSample) :
    (l.flatMap (fun s => [(⟨"user", s.description⟩ : PromptMessage),
      ⟨"assistant", jsonStringifyCode s.code⟩])).length = 2 * l.length := by
  induction l with
  | nil => rfl
  | cons s rest ih =>
    simp only [List.flatMap_cons, List.length_append, ih, List.length_cons]
    simp
    omega

theorem flatMap_examplePair_roles (l : List FewShotSample) :
    ∀ i : Nat,
      (((l.flatMap (fun s => [(⟨"user", s.description⟩ : PromptMessage),
        ⟨"assistant", jsonStringifyCode s.code⟩]))[2 * i]?).all
        (fun m => m.role == "user")) = true ∧
      (((l.flatMap (fun s => [(⟨"user", s.description⟩ : PromptMessage),
        ⟨"assistant", jsonStringifyCode s.code⟩]))[2 * i + 1]?).all
        (fun m => m.role == "assistant")) = true := by
  induction l with
  | nil =>
    intro i
    constructor <;> simp
  | cons s rest ih =>
    intro i
    rw [List.flatMap_cons]
    cases i with
    | zero => constructor <;> simp
    | succ j =>
      have h1 : 2 * (j + 1) = 2 * j + 1 + 1 := by ring
      rw [h1]
      simp only [List.cons_append, List.nil_append, List.getElem?_cons_succ]
      exact ih j

/-- Claim C9: `formatFewShotExamples` contributes exactly one
(user, assistant) message pair per sample with nonempty description and
code — the user message holding the description verbatim and the assistant
message holding the serialized single-field code object — so the output
has even length and strictly alternating roles starting with user. -/
theorem formatFewShotExamples_props (samples : List FewShotSample) :
    formatFewShotExamples samples =
      (samples.filter (fun s => !(s.description == "") && !(s.code == ""))).flatMap
        (fun s => [⟨"user", s.description⟩, ⟨"assistant", jsonStringifyCode s.code⟩]) ∧
    (formatFewShotExamples samples).length =
      2 * (samples.filter (fun s => !(s.description == "") && !(s.code == ""))).length ∧
    ∀ i : Nat,
      (((formatFewShotExamples samples)[2 * i]?).all (fun m => m.role == "user")) = true ∧
      (((formatFewShotExamples samples)[2 * i + 1]?).all
        (fun m => m.role == "assistant")) = true := by
  refine ⟨formatFewShotExamples_eq samples, ?_, ?_⟩
  · rw [formatFewShotExamples_eq samples, flatMap_examplePair_length]
  · intro i
    rw [formatFewShotExamples_eq samples]
    exact flatMap_examplePair_roles _ i

theorem initializeSession_keeps_history_pair_witness :
    ∃ pre h, initialPromptsOf []
        [⟨"i1", Role.user, "A", 0⟩, ⟨"i2", Role.system, "B", 0⟩] = pre ++ h ∧
      (h = formatConversationHistory
          [⟨"i1", Role.user, "A", 0⟩, ⟨"i2", Role.system, "B", 0⟩] 2 ∨
        h = formatConversationHistory
          [⟨"i1", Role.user, "A", 0⟩, ⟨"i2", Role.system, "B", 0⟩] 1) ∧
      h ≠ [] :=
  initializeSession_keeps_history_pair.1 []
    [⟨"i1", Role.user, "A", 0⟩, ⟨"i2", Role.system, "B", 0⟩] (by decide)
